import Mathlib

/-!
Verification of the expense-tracker synchronization and merge engine.

The definitions below are a shallow embedding of the TypeScript source:
* the data model comes from the `@/types` module (`BudgetCategory`,
  `FixedExpense`, `Expense`, `MonthlyBudget`);
* `recalculateCategorySpending`, `mergeRemoteWithLocal` and the store
  mutations come from the zustand store (`useExpenseStore`);
* the subscription guards come from `firestoreService.ts`.

Numbers in the source are JS numbers used only for additions and
comparisons of currency amounts; they are embedded as `Int`.  The
`createdAt` ISO date-string is only ever consumed through
`new Date(createdAt)` comparisons, so it is embedded as a `Nat`
timestamp compared with `<`.  Identifiers are `String`s, compared with
`==` exactly as JS compares them with `===`.
-/

/-- Embeds the `BudgetCategory` interface of `@/types`.  The TS `type`
union field is embedded as a plain string. -/
structure BudgetCategory where
  id : String
  name : String
  type : String
  allocatedAmount : Int
  spentAmount : Int
  month : String
  deriving DecidableEq, Repr

/-- Embeds the `FixedExpense` interface of `@/types`. -/
structure FixedExpense where
  id : String
  name : String
  amount : Int
  isCompleted : Bool
  dueDate : Option String
  categoryId : String
  deriving DecidableEq, Repr

/-- Embeds the `Expense` interface of `@/types`; `type` is the origin
tag (`"manual"` or `"fixed"`). -/
structure Expense where
  id : String
  categoryId : String
  amount : Int
  description : String
  date : String
  type : String
  deriving DecidableEq, Repr

/-- Embeds the `MonthlyBudget` interface of `@/types`; `createdAt` is
the creation timestamp (the source stores an ISO string and compares it
through `new Date`). -/
structure MonthlyBudget where
  id : String
  month : String
  totalSalary : Int
  categories : List BudgetCategory
  fixedExpenses : List FixedExpense
  expenses : List Expense
  createdAt : Nat
  deriving DecidableEq, Repr

/-- A JS `Map<string, number>` used by `recalculateCategorySpending`,
embedded as an association list in insertion order. -/
abbrev SpendMap := List (String × Int)

/-- `map.get(k) || 0` — first-match lookup with default `0` (a stored
`0` is falsy in JS and also yields `0`, so the embedding agrees with the
source). -/
def SpendMap.getD : SpendMap → String → Int
  | [], _ => 0
  | p :: t, k => if p.1 = k then p.2 else SpendMap.getD t k

/-- `map.set(k, v)`: replaces the value of an existing key in place
(keeping its insertion position) or appends a fresh key at the end. -/
def SpendMap.setVal (m : SpendMap) (k : String) (v : Int) : SpendMap :=
  if m.any (fun p => p.1 == k) then
    m.map (fun p => if p.1 = k then (k, v) else p)
  else m ++ [(k, v)]

/-- The accumulation loop of `recalculateCategorySpending` (source lines
100–104): for every expense, add its amount to its category's entry. -/
def buildSpending (es : List Expense) : SpendMap :=
  es.foldl (fun m e => m.setVal e.categoryId (m.getD e.categoryId + e.amount)) []

/-- `recalculateCategorySpending` (source lines 96–116): recompute every
category's `spentAmount` from the expense ledger. -/
def recalculateCategorySpending (b : MonthlyBudget) : MonthlyBudget :=
  let categorySpending := buildSpending b.expenses
  { b with categories :=
      b.categories.map (fun cat => { cat with spentAmount := categorySpending.getD cat.id }) }

/-- The specification-side sum: total amount of the expenses of `es`
whose `categoryId` is `cid`. -/
def spentSum (es : List Expense) (cid : String) : Int :=
  ((es.filter (fun e => e.categoryId == cid)).map (fun e => e.amount)).sum

/-- The derived-aggregation invariant of the spec (§3): every category's
`spentAmount` is the sum of the amounts of the budget's expenses that
reference it. -/
def CategoryConsistent (b : MonthlyBudget) : Prop :=
  ∀ c ∈ b.categories, c.spentAmount = spentSum b.expenses c.id

instance (b : MonthlyBudget) : Decidable (CategoryConsistent b) := by
  unfold CategoryConsistent; infer_instance

theorem SpendMap.getD_map_ne (m : SpendMap) (k v k2) (hne : k2 ≠ k) :
    SpendMap.getD (m.map (fun p => if p.1 = k then (k, v) else p)) k2 =
      SpendMap.getD m k2 := by
  induction m with
  | nil => rfl
  | cons p t ih =>
    by_cases hp : p.1 = k
    · have h1 : ¬ k = k2 := fun h => hne h.symm
      have h2 : ¬ p.1 = k2 := by rw [hp]; exact h1
      simp [SpendMap.getD, hp, h1, h2, ih]
    · by_cases hp2 : p.1 = k2 <;> simp [SpendMap.getD, hp, hp2, hne, ih]

theorem SpendMap.getD_map_self (m : SpendMap) (k v)
    (hmem : m.any (fun p => p.1 == k) = true) :
    SpendMap.getD (m.map (fun p => if p.1 = k then (k, v) else p)) k = v := by
  induction m with
  | nil => simp at hmem
  | cons p t ih =>
    by_cases hp : p.1 = k
    · simp [SpendMap.getD, hp]
    · have hmem' : t.any (fun p => p.1 == k) = true := by
        simpa [List.any_cons, hp] using hmem
      simp [SpendMap.getD, hp, ih hmem']

theorem SpendMap.getD_append_fresh (m : SpendMap) (k v k2)
    (hmem : ∀ p ∈ m, ¬ p.1 = k) :
    SpendMap.getD (m ++ [(k, v)]) k2 = if k2 = k then v else SpendMap.getD m k2 := by
  induction m with
  | nil =>
    by_cases hk2 : k2 = k
    · subst hk2; simp [SpendMap.getD]
    · have : ¬ k = k2 := fun h => hk2 h.symm
      simp [SpendMap.getD, hk2, this]
  | cons p t ih =>
    have hp : ¬ p.1 = k := hmem p (List.mem_cons_self p t)
    have hmem' : ∀ q ∈ t, ¬ q.1 = k := fun q hq => hmem q (List.mem_cons_of_mem p hq)
    by_cases hp2 : p.1 = k2
    · have hk2 : ¬ k2 = k := fun h => hp (by rw [hp2, h])
      simp [SpendMap.getD, hp2, hk2]
    · simp [SpendMap.getD, hp2, ih hmem']

theorem SpendMap.getD_setVal (m : SpendMap) (k : String) (v : Int) (k2 : String) :
    (m.setVal k v).getD k2 = if k2 = k then v else m.getD k2 := by
  unfold SpendMap.setVal
  by_cases hmem : m.any (fun p => p.1 == k) = true
  · simp only [hmem, if_true]
    by_cases hk2 : k2 = k
    · subst hk2; simp [SpendMap.getD_map_self m k2 v hmem]
    · simp [SpendMap.getD_map_ne m k v k2 hk2, hk2]
  · simp only [hmem, if_false]
    apply SpendMap.getD_append_fresh
    intro p hp hpk
    exact hmem (List.any_eq_true.mpr ⟨p, hp, by simp [hpk]⟩)

theorem spentSum_cons (e : Expense) (es : List Expense) (cid : String) :
    spentSum (e :: es) cid =
      (if e.categoryId = cid then e.amount else 0) + spentSum es cid := by
  by_cases h : e.categoryId = cid <;>
    simp [spentSum, List.filter_cons, h, add_comm]

theorem buildSpending_loop_getD (es : List Expense) (m : SpendMap) (k : String) :
    (es.foldl (fun m e => m.setVal e.categoryId (m.getD e.categoryId + e.amount)) m).getD k
      = m.getD k + spentSum es k := by
  induction es generalizing m with
  | nil => simp [spentSum, SpendMap.getD]
  | cons e t ih =>
    rw [List.foldl_cons, ih, SpendMap.getD_setVal, spentSum_cons]
    by_cases h : k = e.categoryId
    · subst h; simp [add_assoc]
    · have h2 : ¬ e.categoryId = k := fun hx => h hx.symm
      simp [h, h2]

/-- The map built by the accumulation loop looks up to the plain
per-category sum. -/
theorem buildSpending_getD (es : List Expense) (k : String) :
    (buildSpending es).getD k = spentSum es k := by
  simpa [buildSpending, SpendMap.getD] using buildSpending_loop_getD es [] k

theorem recalc_categories (b : MonthlyBudget) :
    (recalculateCategorySpending b).categories =
      b.categories.map (fun c => { c with spentAmount := spentSum b.expenses c.id }) := by
  simp [recalculateCategorySpending, buildSpending_getD]

theorem recalc_expenses (b : MonthlyBudget) :
    (recalculateCategorySpending b).expenses = b.expenses := rfl

theorem recalc_createdAt (b : MonthlyBudget) :
    (recalculateCategorySpending b).createdAt = b.createdAt := rfl

theorem recalc_consistent (b : MonthlyBudget) :
    CategoryConsistent (recalculateCategorySpending b) := by
  intro c hc
  rw [recalc_categories] at hc
  obtain ⟨c0, _, rfl⟩ := List.mem_map.mp hc
  simp [recalc_expenses]

theorem recalc_of_consistent {b : MonthlyBudget} (h : CategoryConsistent b) :
    recalculateCategorySpending b = b := by
  have h2 : ∀ c ∈ b.categories,
      ({ c with spentAmount := spentSum b.expenses c.id } : BudgetCategory) = c := by
    intro c hc; rw [← h c hc]
  have hcats : (recalculateCategorySpending b).categories = b.categories := by
    rw [recalc_categories]; simpa using List.map_congr_left h2
  obtain ⟨i, mo, sal, cats, fes, es, ca⟩ := b
  exact congrArg (fun l => MonthlyBudget.mk i mo sal l fes es ca) hcats

theorem recalc_idem (b : MonthlyBudget) :
    recalculateCategorySpending (recalculateCategorySpending b) =
      recalculateCategorySpending b :=
  recalc_of_consistent (recalc_consistent b)

/-- Merge of one budget present on both sides (source lines 136–164 of
`mergeRemoteWithLocal`): keep every local expense, append remote
expenses with fresh ids, pick the base from whichever side has the
strictly newer creation timestamp (local on ties), and recalculate. -/
def mergeBudget (localBudget remoteBudget : MonthlyBudget) : MonthlyBudget :=
  let allExpenses := localBudget.expenses ++
    remoteBudget.expenses.filter
      (fun e => !(localBudget.expenses.any (fun x => x.id == e.id)))
  let baseBudget :=
    if localBudget.createdAt < remoteBudget.createdAt then remoteBudget else localBudget
  recalculateCategorySpending { baseBudget with expenses := allExpenses }

/-- One insertion into `new Map(remoteBudgets.map(b => [b.id, b]))`: a
duplicate key overwrites the stored value but keeps its insertion
position. -/
def budgetMapInsert (m : List MonthlyBudget) (b : MonthlyBudget) : List MonthlyBudget :=
  if m.any (fun x => x.id == b.id) then m.map (fun x => if x.id = b.id then b else x)
  else m ++ [b]

/-- One iteration of the `for (const localBudget of localBudgets)` loop
(source lines 133–174): the state is the remaining remote map paired
with the `merged` output list. -/
def mergeStep (acc : List MonthlyBudget × List MonthlyBudget) (localBudget : MonthlyBudget) :
    List MonthlyBudget × List MonthlyBudget :=
  match acc.1.find? (fun b => b.id == localBudget.id) with
  | some remoteBudget =>
      (acc.1.filter (fun b => !(b.id == localBudget.id)),
       acc.2 ++ [mergeBudget localBudget remoteBudget])
  | none => (acc.1, acc.2 ++ [localBudget])

/-- `mergeRemoteWithLocal` (source lines 119–186): process local budgets
against the remote map, then append the remaining remote-only budgets in
insertion order. -/
def mergeRemoteWithLocal (localBudgets remoteBudgets : List MonthlyBudget) :
    List MonthlyBudget :=
  let remoteMap := remoteBudgets.foldl budgetMapInsert []
  let res := localBudgets.foldl mergeStep (remoteMap, [])
  res.2 ++ res.1

/-- How one local budget is merged against a remote collection: combined
with its remote counterpart when one exists, kept unchanged otherwise. -/
def mergeOne (remoteBudgets : List MonthlyBudget) (lb : MonthlyBudget) : MonthlyBudget :=
  match remoteBudgets.find? (fun b => b.id == lb.id) with
  | some rb => mergeBudget lb rb
  | none => lb

def budgetIds (l : List MonthlyBudget) : List String := l.map (fun b => b.id)

def expenseIds (es : List Expense) : List String := es.map (fun e => e.id)

theorem recalc_id (b : MonthlyBudget) :
    (recalculateCategorySpending b).id = b.id := rfl

theorem mergeBudget_expenses (lb rb : MonthlyBudget) :
    (mergeBudget lb rb).expenses =
      lb.expenses ++ rb.expenses.filter
        (fun e => !(lb.expenses.any (fun x => x.id == e.id))) := rfl

theorem mergeBudget_id {lb rb : MonthlyBudget} (h : rb.id = lb.id) :
    (mergeBudget lb rb).id = lb.id := by
  unfold mergeBudget
  by_cases hlt : lb.createdAt < rb.createdAt <;> simp [hlt, recalc_id, h]

theorem mergeOne_id (r : List MonthlyBudget) (lb : MonthlyBudget) :
    (mergeOne r lb).id = lb.id := by
  unfold mergeOne
  cases hfind : r.find? (fun b => b.id == lb.id) with
  | none => rfl
  | some rb =>
    have h1 := List.find?_some hfind
    simp only [beq_iff_eq] at h1
    exact mergeBudget_id h1

theorem foldl_budgetMapInsert (r : List MonthlyBudget) :
    ∀ m : List MonthlyBudget, (budgetIds r).Nodup →
      (∀ b ∈ r, ∀ x ∈ m, ¬ x.id = b.id) →
      r.foldl budgetMapInsert m = m ++ r := by
  induction r with
  | nil => intro m _ _; simp
  | cons b t ih =>
    intro m hr hdisj
    have hr' : b.id ∉ budgetIds t ∧ (budgetIds t).Nodup := List.nodup_cons.mp hr
    have hstep : budgetMapInsert m b = m ++ [b] := by
      unfold budgetMapInsert
      have : m.any (fun x => x.id == b.id) = false := by
        simp only [List.any_eq_false]
        intro x hx
        simpa using hdisj b (List.mem_cons_self b t) x hx
      simp [this]
    rw [List.foldl_cons, hstep, ih (m ++ [b]) hr'.2 ?_, List.append_assoc]
    · rfl
    · intro c hc x hx
      rcases List.mem_append.mp hx with hxm | hxb
      · exact hdisj c (List.mem_cons_of_mem b hc) x hxm
      · have hxb' : x = b := by simpa using hxb
        subst hxb'
        intro hxeq
        apply hr'.1
        rw [hxeq]
        exact List.mem_map.mpr ⟨c, hc, rfl⟩

theorem find?_filter_ne (m : List MonthlyBudget) (i j : String) (hne : ¬ i = j) :
    (m.filter (fun b => !(b.id == j))).find? (fun b => b.id == i) =
      m.find? (fun b => b.id == i) := by
  induction m with
  | nil => rfl
  | cons x t ih =>
    have hji : (j == i) = false := beq_eq_false_iff_ne.mpr (fun h => hne h.symm)
    have hij : (i == j) = false := beq_eq_false_iff_ne.mpr hne
    by_cases hxj : x.id = j
    · have hxi : ¬ x.id = i := fun h => hne (by rw [← h, hxj])
      simp [List.filter_cons, hxj, hxi, List.find?_cons, hji, hij, ih]
    · by_cases hxi : x.id = i <;>
        simp [List.filter_cons, hxj, List.find?_cons, hxi, hji, hij, ih]

theorem mergeLoop_spec (l : List MonthlyBudget) :
    ∀ m out, (budgetIds l).Nodup →
      l.foldl mergeStep (m, out) =
        (m.filter (fun b => !(l.any (fun x => x.id == b.id))),
         out ++ l.map (mergeOne m)) := by
  induction l with
  | nil => intro m out _; simp
  | cons lb t ih =>
    intro m out hl
    have hl' : lb.id ∉ budgetIds t ∧ (budgetIds t).Nodup := List.nodup_cons.mp hl
    rw [List.foldl_cons]
    cases hfind : m.find? (fun b => b.id == lb.id) with
    | some rb =>
      have hstep : mergeStep (m, out) lb =
          (m.filter (fun b => !(b.id == lb.id)), out ++ [mergeBudget lb rb]) := by
        simp [mergeStep, hfind]
      rw [hstep, ih _ _ hl'.2]
      refine Prod.ext ?_ ?_
      · show (m.filter (fun b => !(b.id == lb.id))).filter
            (fun b => !(t.any (fun x => x.id == b.id))) = _
        rw [List.filter_filter]
        apply List.filter_congr
        intro b _
        by_cases h1 : b.id = lb.id
        · have e1 : (b.id == lb.id) = true := beq_iff_eq.mpr h1
          have e2 : (lb.id == b.id) = true := beq_iff_eq.mpr h1.symm
          simp [List.any_cons, e1, e2]
        · have e1 : (b.id == lb.id) = false := beq_eq_false_iff_ne.mpr h1
          have e2 : (lb.id == b.id) = false :=
            beq_eq_false_iff_ne.mpr (fun h => h1 h.symm)
          simp [List.any_cons, e1, e2]
      · show (out ++ [mergeBudget lb rb]) ++
            t.map (mergeOne (m.filter (fun b => !(b.id == lb.id)))) = _
        have hmapeq : t.map (mergeOne (m.filter (fun b => !(b.id == lb.id)))) =
            t.map (mergeOne m) := by
          apply List.map_congr_left
          intro b2 hb2
          have hne : ¬ b2.id = lb.id := by
            intro h
            exact hl'.1 (h ▸ List.mem_map.mpr ⟨b2, hb2, rfl⟩)
          unfold mergeOne
          rw [find?_filter_ne m b2.id lb.id hne]
        have hone : mergeOne m lb = mergeBudget lb rb := by
          simp [mergeOne, hfind]
        rw [hmapeq, List.map_cons, hone, List.append_assoc]
        rfl
    | none =>
      have hstep : mergeStep (m, out) lb = (m, out ++ [lb]) := by
        simp [mergeStep, hfind]
      rw [hstep, ih _ _ hl'.2]
      have hnone : ∀ b ∈ m, ¬ b.id = lb.id := by
        intro b hb h
        have := List.find?_eq_none.mp hfind b hb
        simp [h] at this
      refine Prod.ext ?_ ?_
      · show m.filter (fun b => !(t.any (fun x => x.id == b.id))) = _
        apply List.filter_congr
        intro b hb
        have h1 : ¬ lb.id = b.id := fun h => hnone b hb h.symm
        simp [h1, List.any_cons]
      · show (out ++ [lb]) ++ t.map (mergeOne m) = _
        have hone : mergeOne m lb = lb := by simp [mergeOne, hfind]
        rw [List.map_cons, hone, List.append_assoc]
        rfl

/-- Structural characterization of `mergeRemoteWithLocal` when budget
ids are unique on each side: every local budget is merged against its
remote counterpart (or kept), then the remote-only budgets follow. -/
theorem mergeRemoteWithLocal_eq (l r : List MonthlyBudget)
    (hl : (budgetIds l).Nodup) (hr : (budgetIds r).Nodup) :
    mergeRemoteWithLocal l r =
      l.map (mergeOne r) ++
        r.filter (fun b => !(l.any (fun x => x.id == b.id))) := by
  show (l.foldl mergeStep (r.foldl budgetMapInsert [], [])).2 ++
      (l.foldl mergeStep (r.foldl budgetMapInsert [], [])).1 = _
  rw [show r.foldl budgetMapInsert [] = [] ++ r from
      foldl_budgetMapInsert r [] hr (by simp), List.nil_append,
    mergeLoop_spec l r [] hl]
  rfl

theorem find?_eq_some_of_nodup {r : List MonthlyBudget} {rb : MonthlyBudget}
    (hr : (budgetIds r).Nodup) (hmem : rb ∈ r) :
    r.find? (fun b => b.id == rb.id) = some rb := by
  induction r with
  | nil => cases hmem
  | cons x t ih =>
    have hr' : x.id ∉ budgetIds t ∧ (budgetIds t).Nodup := List.nodup_cons.mp hr
    rcases List.mem_cons.mp hmem with hx | ht
    · subst hx
      exact List.find?_cons_of_pos _ (by simp)
    · have hne : (x.id == rb.id) = false := by
        refine beq_eq_false_iff_ne.mpr ?_
        intro h
        exact hr'.1 (h ▸ List.mem_map.mpr ⟨rb, ht, rfl⟩)
      rw [List.find?_cons_of_neg _ (by simp [hne]), ih hr'.2 ht]

theorem mergeOne_of_mem {r : List MonthlyBudget} {rb lb : MonthlyBudget}
    (hr : (budgetIds r).Nodup) (hmem : rb ∈ r) (hid : rb.id = lb.id) :
    mergeOne r lb = mergeBudget lb rb := by
  unfold mergeOne
  rw [show (fun b : MonthlyBudget => b.id == lb.id) = (fun b => b.id == rb.id) from
      by funext b; rw [hid], find?_eq_some_of_nodup hr hmem]

theorem mergeOne_of_not_mem {r : List MonthlyBudget} {lb : MonthlyBudget}
    (hnone : ∀ rb ∈ r, ¬ rb.id = lb.id) :
    mergeOne r lb = lb := by
  unfold mergeOne
  rw [List.find?_eq_none.mpr (by intro b hb; simp [hnone b hb])]

theorem mem_filter_remoteOnly {l r : List MonthlyBudget} {b : MonthlyBudget}
    (h : b ∈ r.filter (fun b => !(l.any (fun x => x.id == b.id)))) :
    b ∈ r ∧ ∀ x ∈ l, ¬ x.id = b.id := by
  have h2 := List.mem_filter.mp h
  refine ⟨h2.1, ?_⟩
  intro x hx
  have h3 := h2.2
  simp only [Bool.not_eq_eq_eq_not, Bool.not_true, List.any_eq_false] at h3
  simpa using h3 x hx

theorem mem_filter_remoteOnly_of {l r : List MonthlyBudget} {b : MonthlyBudget}
    (hb : b ∈ r) (hnot : ∀ x ∈ l, ¬ x.id = b.id) :
    b ∈ r.filter (fun b => !(l.any (fun x => x.id == b.id))) := by
  refine List.mem_filter.mpr ⟨hb, ?_⟩
  simp only [Bool.not_eq_eq_eq_not, Bool.not_true, List.any_eq_false]
  intro x hx
  simpa using hnot x hx

/-- The id sequence of the merged list: local ids in order, then the
remote-only ids in order. -/
theorem merged_budgetIds (l r : List MonthlyBudget)
    (hl : (budgetIds l).Nodup) (hr : (budgetIds r).Nodup) :
    budgetIds (mergeRemoteWithLocal l r) =
      budgetIds l ++ budgetIds (r.filter (fun b => !(l.any (fun x => x.id == b.id)))) := by
  rw [mergeRemoteWithLocal_eq l r hl hr]
  unfold budgetIds
  rw [List.map_append, List.map_map]
  congr 1
  apply List.map_congr_left
  intro lb _
  exact mergeOne_id r lb

theorem merged_budgetIds_nodup (l r : List MonthlyBudget)
    (hl : (budgetIds l).Nodup) (hr : (budgetIds r).Nodup) :
    (budgetIds (mergeRemoteWithLocal l r)).Nodup := by
  rw [merged_budgetIds l r hl hr]
  apply List.Nodup.append hl
  · exact List.Nodup.sublist (List.Sublist.map _ (List.filter_sublist r)) hr
  · intro i hil hir
    unfold budgetIds at hil hir
    obtain ⟨b, hb, rfl⟩ := List.mem_map.mp hir
    obtain ⟨x, hx, hxid⟩ := List.mem_map.mp hil
    exact (mem_filter_remoteOnly hb).2 x hx hxid

/-- The transaction union built for a budget present on both sides:
every local expense, then the remote expenses whose id is not present
locally. -/
def expUnion (lx ry : List Expense) : List Expense :=
  lx ++ ry.filter (fun e => !(lx.any (fun x => x.id == e.id)))

theorem mergeBudget_expenses_expUnion (lb rb : MonthlyBudget) :
    (mergeBudget lb rb).expenses = expUnion lb.expenses rb.expenses := rfl

theorem mem_filter_freshExp {lx ry : List Expense} {e : Expense}
    (h : e ∈ ry.filter (fun e => !(lx.any (fun x => x.id == e.id)))) :
    e ∈ ry ∧ ∀ x ∈ lx, ¬ x.id = e.id := by
  have h2 := List.mem_filter.mp h
  refine ⟨h2.1, ?_⟩
  intro x hx
  have h3 := h2.2
  simp only [Bool.not_eq_eq_eq_not, Bool.not_true, List.any_eq_false] at h3
  simpa using h3 x hx

theorem expUnion_countP_left {lx : List Expense} (ry : List Expense) {i : String}
    (h : (expenseIds lx).Nodup) (hi : i ∈ expenseIds lx) :
    (expUnion lx ry).countP (fun e => e.id == i) = 1 := by
  unfold expUnion
  rw [List.countP_append]
  have h1 : lx.countP (fun e => e.id == i) = 1 := by
    have := List.countP_map (fun s => s == i) (fun e : Expense => e.id) lx
    unfold expenseIds at h hi
    rw [show (fun e : Expense => e.id == i) = ((fun s => s == i) ∘ fun e => e.id) from rfl,
      ← this]
    exact List.count_eq_one_of_mem h hi
  have h2 : (ry.filter (fun e => !(lx.any (fun x => x.id == e.id)))).countP
      (fun e => e.id == i) = 0 := by
    rw [List.countP_eq_zero]
    intro e he hei
    obtain ⟨x, hx, hxid⟩ := List.mem_map.mp hi
    have := (mem_filter_freshExp he).2 x hx
    simp only [beq_iff_eq] at hei
    exact this (by rw [hxid, ← hei])
  omega

theorem expUnion_countP_right {lx ry : List Expense} {i : String}
    (h : (expenseIds ry).Nodup) (hi : i ∈ expenseIds ry) (hni : i ∉ expenseIds lx) :
    (expUnion lx ry).countP (fun e => e.id == i) = 1 := by
  unfold expUnion
  rw [List.countP_append]
  have h1 : lx.countP (fun e => e.id == i) = 0 := by
    rw [List.countP_eq_zero]
    intro e he hei
    simp only [beq_iff_eq] at hei
    exact hni (hei ▸ List.mem_map.mpr ⟨e, he, rfl⟩)
  have h2 : (ry.filter (fun e => !(lx.any (fun x => x.id == e.id)))).countP
      (fun e => e.id == i) = 1 := by
    rw [List.countP_filter]
    have hcongr : ry.countP
        (fun e => (e.id == i) && !(lx.any (fun x => x.id == e.id))) =
          ry.countP (fun e => e.id == i) := by
      apply List.countP_congr
      intro e he
      constructor
      · intro hb
        exact (Bool.and_eq_true ..|>.mp hb).1
      · intro hb
        refine Bool.and_eq_true ..|>.mpr ⟨hb, ?_⟩
        simp only [beq_iff_eq] at hb
        simp only [Bool.not_eq_eq_eq_not, Bool.not_true, List.any_eq_false]
        intro x hx hxe
        have hxe' : x.id = e.id := beq_iff_eq.mp hxe
        exact hni (by rw [← hb, ← hxe']; exact List.mem_map.mpr ⟨x, hx, rfl⟩)
    rw [hcongr]
    have := List.countP_map (fun s => s == i) (fun e : Expense => e.id) ry
    unfold expenseIds at h hi
    rw [show (fun e : Expense => e.id == i) = ((fun s => s == i) ∘ fun e => e.id) from rfl,
      ← this]
    exact List.count_eq_one_of_mem h hi
  omega

theorem expUnion_filter_left {lx : List Expense} (ry : List Expense) {i : String}
    (hi : i ∈ expenseIds lx) :
    (expUnion lx ry).filter (fun e => e.id == i) =
      lx.filter (fun e => e.id == i) := by
  unfold expUnion
  rw [List.filter_append]
  have h2 : (ry.filter (fun e => !(lx.any (fun x => x.id == e.id)))).filter
      (fun e => e.id == i) = [] := by
    rw [List.filter_eq_nil_iff]
    intro e he hei
    obtain ⟨x, hx, hxid⟩ := List.mem_map.mp hi
    simp only [beq_iff_eq] at hei
    exact (mem_filter_freshExp he).2 x hx (by rw [hxid, ← hei])
  rw [h2, List.append_nil]

theorem expUnion_length_lower (lx ry : List Expense)
    (h : (expenseIds ry).Nodup) :
    max lx.length ry.length ≤ (expUnion lx ry).length := by
  unfold expUnion
  rw [List.length_append]
  apply max_le
  · omega
  · have hsplit := List.length_eq_length_filter_add
      (l := ry) (fun e => !(lx.any (fun x => x.id == e.id)))
    have hbad : (ry.filter (fun e => !(!(lx.any (fun x => x.id == e.id))))).length ≤
        lx.length := by
      set bad := ry.filter (fun e => !(!(lx.any (fun x => x.id == e.id)))) with hbaddef
      have hsub : expenseIds bad ⊆ expenseIds lx := by
        intro i hi
        obtain ⟨e, he, rfl⟩ := List.mem_map.mp hi
        have := (List.mem_filter.mp he).2
        simp only [Bool.not_not, List.any_eq_true] at this
        obtain ⟨x, hx, hxid⟩ := this
        simp only [beq_iff_eq] at hxid
        exact hxid ▸ List.mem_map.mpr ⟨x, hx, rfl⟩
      have hnd : (expenseIds bad).Nodup :=
        List.Nodup.sublist (List.Sublist.map _ (List.filter_sublist ry)) h
      have := (List.Nodup.subperm hnd hsub).length_le
      simpa [expenseIds] using this
    omega


theorem expUnion_length_upper (lx ry : List Expense) :
    (expUnion lx ry).length ≤ lx.length + ry.length := by
  unfold expUnion
  rw [List.length_append]
  have := List.length_filter_le (fun e => !(lx.any (fun x => x.id == e.id))) ry
  omega

theorem mergeBudget_def (lb rb : MonthlyBudget) :
    mergeBudget lb rb =
      recalculateCategorySpending
        { (if lb.createdAt < rb.createdAt then rb else lb) with
          expenses := expUnion lb.expenses rb.expenses } := rfl

theorem mergeBudget_totalSalary (lb rb : MonthlyBudget) :
    (mergeBudget lb rb).totalSalary =
      (if lb.createdAt < rb.createdAt then rb else lb).totalSalary := rfl

theorem mergeBudget_fixedExpenses (lb rb : MonthlyBudget) :
    (mergeBudget lb rb).fixedExpenses =
      (if lb.createdAt < rb.createdAt then rb else lb).fixedExpenses := rfl

theorem mergeBudget_createdAt (lb rb : MonthlyBudget) :
    (mergeBudget lb rb).createdAt =
      (if lb.createdAt < rb.createdAt then rb else lb).createdAt := rfl

theorem mergeBudget_categories (lb rb : MonthlyBudget) :
    (mergeBudget lb rb).categories =
      (if lb.createdAt < rb.createdAt then rb else lb).categories.map
        (fun c => { c with spentAmount := spentSum (expUnion lb.expenses rb.expenses) c.id }) := by
  exact recalc_categories
    ({ (if lb.createdAt < rb.createdAt then rb else lb) with
       expenses := expUnion lb.expenses rb.expenses })

theorem mergeBudget_mem_merged {l r : List MonthlyBudget} {lb rb : MonthlyBudget}
    (hl : (budgetIds l).Nodup) (hr : (budgetIds r).Nodup)
    (hlb : lb ∈ l) (hrb : rb ∈ r) (hid : rb.id = lb.id) :
    mergeBudget lb rb ∈ mergeRemoteWithLocal l r := by
  rw [mergeRemoteWithLocal_eq l r hl hr]
  exact List.mem_append_left _
    (List.mem_map.mpr ⟨lb, hlb, mergeOne_of_mem hr hrb hid⟩)

/-- C5: `recalculateCategorySpending` is a pure total function that
replaces every category's `spentAmount` by the sum of the amounts of
the input budget's expenses referencing it (`0` when no expense
references it), leaving `allocatedAmount` and every other field of the
budget untouched. -/
theorem c5_recalculate_spec (b : MonthlyBudget) :
    (recalculateCategorySpending b).id = b.id ∧
    (recalculateCategorySpending b).month = b.month ∧
    (recalculateCategorySpending b).totalSalary = b.totalSalary ∧
    (recalculateCategorySpending b).fixedExpenses = b.fixedExpenses ∧
    (recalculateCategorySpending b).expenses = b.expenses ∧
    (recalculateCategorySpending b).createdAt = b.createdAt ∧
    (recalculateCategorySpending b).categories =
      b.categories.map (fun c => { c with spentAmount := spentSum b.expenses c.id }) ∧
    ∀ c ∈ b.categories, (∀ e ∈ b.expenses, ¬ e.categoryId = c.id) →
      ({ c with spentAmount := 0 } : BudgetCategory) ∈
        (recalculateCategorySpending b).categories := by
  refine ⟨rfl, rfl, rfl, rfl, rfl, rfl, recalc_categories b, ?_⟩
  intro c hc hnone
  rw [recalc_categories]
  have hzero : spentSum b.expenses c.id = 0 := by
    unfold spentSum
    rw [List.filter_eq_nil_iff.mpr (by intro e he; simp [hnone e he])]
    rfl
  exact List.mem_map.mpr ⟨c, hc, by rw [hzero]⟩

/-- Concrete budget used to witness C5: its single category carries a
stale `spentAmount` of 5 and is referenced by no expense. -/
def c5B : MonthlyBudget :=
  { id := "b1", month := "2025-01", totalSalary := 100,
    categories := [{ id := "cat1", name := "Grocery", type := "grocery",
                     allocatedAmount := 7, spentAmount := 5, month := "2025-01" }],
    fixedExpenses := [], expenses := [], createdAt := 3 }

theorem c5_witness :
    ({ id := "cat1", name := "Grocery", type := "grocery", allocatedAmount := 7,
       spentAmount := 0, month := "2025-01" } : BudgetCategory) ∈
      (recalculateCategorySpending c5B).categories :=
  (c5_recalculate_spec c5B).2.2.2.2.2.2.2
    { id := "cat1", name := "Grocery", type := "grocery", allocatedAmount := 7,
      spentAmount := 5, month := "2025-01" }
    (by decide) (by decide)

/-- C3: for a budget id present in both merge inputs, the merged
budget's `totalSalary`, `categories` and `fixedExpenses` come wholesale
from the remote budget exactly when its creation timestamp is strictly
newer, and from the local budget otherwise (ties included); the unioned
transaction list is attached to the chosen base and derived aggregation
is applied regardless of which side supplied the base. -/
theorem c3_metadata_base (l r : List MonthlyBudget)
    (hl : (budgetIds l).Nodup) (hr : (budgetIds r).Nodup)
    (lb : MonthlyBudget) (hlb : lb ∈ l) (rb : MonthlyBudget) (hrb : rb ∈ r)
    (hid : rb.id = lb.id) :
    mergeBudget lb rb ∈ mergeRemoteWithLocal l r ∧
    mergeBudget lb rb =
      recalculateCategorySpending
        { (if lb.createdAt < rb.createdAt then rb else lb) with
          expenses := lb.expenses ++ rb.expenses.filter
            (fun e => !(lb.expenses.any (fun x => x.id == e.id))) } ∧
    (lb.createdAt < rb.createdAt →
      (mergeBudget lb rb).totalSalary = rb.totalSalary ∧
      (mergeBudget lb rb).fixedExpenses = rb.fixedExpenses ∧
      (mergeBudget lb rb).categories = rb.categories.map
        (fun c => { c with spentAmount := spentSum (expUnion lb.expenses rb.expenses) c.id })) ∧
    (¬ lb.createdAt < rb.createdAt →
      (mergeBudget lb rb).totalSalary = lb.totalSalary ∧
      (mergeBudget lb rb).fixedExpenses = lb.fixedExpenses ∧
      (mergeBudget lb rb).categories = lb.categories.map
        (fun c => { c with spentAmount := spentSum (expUnion lb.expenses rb.expenses) c.id })) := by
  refine ⟨mergeBudget_mem_merged hl hr hlb hrb hid, mergeBudget_def lb rb, ?_, ?_⟩
  · intro hlt
    refine ⟨?_, ?_, ?_⟩
    · rw [mergeBudget_totalSalary, if_pos hlt]
    · rw [mergeBudget_fixedExpenses, if_pos hlt]
    · rw [mergeBudget_categories, if_pos hlt]
  · intro hlt
    refine ⟨?_, ?_, ?_⟩
    · rw [mergeBudget_totalSalary, if_neg hlt]
    · rw [mergeBudget_fixedExpenses, if_neg hlt]
    · rw [mergeBudget_categories, if_neg hlt]

/-- Concrete budgets used to witness C3: same id, remote strictly newer. -/
def c3L : MonthlyBudget :=
  { id := "m1", month := "2025-01", totalSalary := 100,
    categories := [], fixedExpenses := [],
    expenses := [{ id := "e1", categoryId := "g", amount := 10,
                   description := "milk", date := "2025-01-02", type := "manual" }],
    createdAt := 3 }

def c3R : MonthlyBudget :=
  { id := "m1", month := "2025-01", totalSalary := 250,
    categories := [], fixedExpenses := [],
    expenses := [{ id := "e2", categoryId := "g", amount := 50,
                   description := "fuel", date := "2025-01-03", type := "manual" }],
    createdAt := 7 }

theorem c3_witness :
    mergeBudget c3L c3R ∈ mergeRemoteWithLocal [c3L] [c3R] ∧
    (mergeBudget c3L c3R).totalSalary = c3R.totalSalary :=
  have h := c3_metadata_base [c3L] [c3R] (by decide) (by decide)
    c3L (by decide) c3R (by decide) (by decide)
  ⟨h.1, (h.2.2.1 (by decide)).1⟩

/-- Two distinct local budgets sharing the budget id "b"; each has a
(vacuously) duplicate-free transaction list. -/
def c1DupA : MonthlyBudget :=
  { id := "b", month := "2025-01", totalSalary := 0, categories := [],
    fixedExpenses := [], expenses := [], createdAt := 0 }

def c1DupB : MonthlyBudget :=
  { id := "b", month := "2025-02", totalSalary := 0, categories := [],
    fixedExpenses := [], expenses := [], createdAt := 0 }

/-- C1 counterexample: the claim quantifies over all budget lists whose
transaction ids are unique within each budget, but says nothing about
budget ids.  With two local budgets sharing the id "b" (and empty
transaction lists, so the stated hypothesis holds), the merge keeps
both, so the result does not contain one budget per occurring budget
id. -/
theorem c1_counterexample :
    (expenseIds c1DupA.expenses).Nodup ∧
    (expenseIds c1DupB.expenses).Nodup ∧
    mergeRemoteWithLocal [c1DupA, c1DupB] [] = [c1DupA, c1DupB] ∧
    (budgetIds (mergeRemoteWithLocal [c1DupA, c1DupB] [])).countP
      (fun i => i == "b") = 2 := by
  refine ⟨by decide, by decide, by decide, by decide⟩

/-- C1 (amended with budget-id uniqueness per list): the merge contains
exactly one budget per budget id occurring on either side; a budget id
present on both sides gets the local transactions followed by the
remote transactions with fresh ids, so every transaction id from either
side appears exactly once, the survivor of an id collision is the local
copy, and the merged ledger size is bounded by
`max ≤ size ≤ sum`; local-only budgets are kept unchanged and
remote-only budgets are adopted unchanged. -/
theorem c1_merge_union_contract (l r : List MonthlyBudget)
    (hlid : (budgetIds l).Nodup) (hrid : (budgetIds r).Nodup)
    (hltx : ∀ b ∈ l, (expenseIds b.expenses).Nodup)
    (hrtx : ∀ b ∈ r, (expenseIds b.expenses).Nodup) :
    (budgetIds (mergeRemoteWithLocal l r)).Nodup ∧
    (∀ i, i ∈ budgetIds (mergeRemoteWithLocal l r) ↔
      i ∈ budgetIds l ∨ i ∈ budgetIds r) ∧
    (∀ lb ∈ l, ∀ rb ∈ r, rb.id = lb.id →
      mergeBudget lb rb ∈ mergeRemoteWithLocal l r ∧
      (mergeBudget lb rb).expenses =
        lb.expenses ++ rb.expenses.filter
          (fun e => !(lb.expenses.any (fun x => x.id == e.id))) ∧
      (∀ i, i ∈ expenseIds lb.expenses ∨ i ∈ expenseIds rb.expenses →
        (mergeBudget lb rb).expenses.countP (fun e => e.id == i) = 1) ∧
      (∀ i, i ∈ expenseIds lb.expenses → i ∈ expenseIds rb.expenses →
        (mergeBudget lb rb).expenses.filter (fun e => e.id == i) =
          lb.expenses.filter (fun e => e.id == i)) ∧
      max lb.expenses.length rb.expenses.length ≤ (mergeBudget lb rb).expenses.length ∧
      (mergeBudget lb rb).expenses.length ≤
        lb.expenses.length + rb.expenses.length) ∧
    (∀ lb ∈ l, (∀ rb ∈ r, ¬ rb.id = lb.id) → lb ∈ mergeRemoteWithLocal l r) ∧
    (∀ rb ∈ r, (∀ lb ∈ l, ¬ lb.id = rb.id) → rb ∈ mergeRemoteWithLocal l r) := by
  refine ⟨merged_budgetIds_nodup l r hlid hrid, ?_, ?_, ?_, ?_⟩
  · intro i
    rw [merged_budgetIds l r hlid hrid, List.mem_append]
    constructor
    · rintro (hil | hif)
      · exact Or.inl hil
      · obtain ⟨b, hb, rfl⟩ := List.mem_map.mp hif
        exact Or.inr (List.mem_map.mpr ⟨b, (mem_filter_remoteOnly hb).1, rfl⟩)
    · rintro (hil | hir)
      · exact Or.inl hil
      · by_cases hin : i ∈ budgetIds l
        · exact Or.inl hin
        · obtain ⟨rb, hrb, rfl⟩ := List.mem_map.mp hir
          refine Or.inr (List.mem_map.mpr ⟨rb, mem_filter_remoteOnly_of hrb ?_, rfl⟩)
          intro x hx hxid
          exact hin (hxid ▸ List.mem_map.mpr ⟨x, hx, rfl⟩)
  · intro lb hlb rb hrb hid
    refine ⟨mergeBudget_mem_merged hlid hrid hlb hrb hid,
      mergeBudget_expenses lb rb, ?_, ?_, ?_, ?_⟩
    · intro i hi
      rw [mergeBudget_expenses_expUnion]
      by_cases hil : i ∈ expenseIds lb.expenses
      · exact expUnion_countP_left rb.expenses (hltx lb hlb) hil
      · rcases hi with hl2 | hr2
        · exact absurd hl2 hil
        · exact expUnion_countP_right (hrtx rb hrb) hr2 hil
    · intro i hil _
      rw [mergeBudget_expenses_expUnion]
      exact expUnion_filter_left rb.expenses hil
    · rw [mergeBudget_expenses_expUnion]
      exact expUnion_length_lower lb.expenses rb.expenses (hrtx rb hrb)
    · rw [mergeBudget_expenses_expUnion]
      exact expUnion_length_upper lb.expenses rb.expenses
  · intro lb hlb hnone
    rw [mergeRemoteWithLocal_eq l r hlid hrid]
    exact List.mem_append_left _
      (List.mem_map.mpr ⟨lb, hlb, mergeOne_of_not_mem hnone⟩)
  · intro rb hrb hnone
    rw [mergeRemoteWithLocal_eq l r hlid hrid]
    exact List.mem_append_right _ (mem_filter_remoteOnly_of hrb hnone)

/-- Concrete budgets used to witness C1: same budget id on both sides,
one expense each with distinct ids. -/
def c1L : MonthlyBudget :=
  { id := "m1", month := "2025-01", totalSalary := 100,
    categories := [], fixedExpenses := [],
    expenses := [{ id := "e1", categoryId := "g", amount := 100,
                   description := "milk", date := "2025-01-02", type := "manual" }],
    createdAt := 5 }

def c1R : MonthlyBudget :=
  { id := "m1", month := "2025-01", totalSalary := 100,
    categories := [], fixedExpenses := [],
    expenses := [{ id := "e2", categoryId := "g", amount := 50,
                   description := "fuel", date := "2025-01-03", type := "manual" }],
    createdAt := 3 }

theorem c1_witness :
    mergeBudget c1L c1R ∈ mergeRemoteWithLocal [c1L] [c1R] ∧
    (mergeBudget c1L c1R).expenses.countP (fun e => e.id == "e2") = 1 :=
  have h := c1_merge_union_contract [c1L] [c1R]
    (by decide) (by decide) (by decide) (by decide)
  have h2 := h.2.2.1 c1L (by decide) c1R (by decide) (by decide)
  ⟨h2.1, h2.2.2.1 "e2" (Or.inr (by decide))⟩

theorem filter_self_ids (lx : List Expense) :
    lx.filter (fun e => !(lx.any (fun x => x.id == e.id))) = [] := by
  rw [List.filter_eq_nil_iff]
  intro e he
  simp only [Bool.not_eq_eq_eq_not, Bool.not_true, Bool.not_eq_false, List.any_eq_true]
  exact ⟨e, he, by simp⟩

theorem expUnion_self_absorb (lx ry : List Expense) :
    expUnion lx (expUnion lx ry) = expUnion lx ry := by
  show lx ++ (expUnion lx ry).filter (fun e => !(lx.any (fun x => x.id == e.id))) = _
  unfold expUnion
  rw [List.filter_append, filter_self_ids, List.nil_append, List.filter_filter]
  have : ry.filter
      (fun e => (!(lx.any (fun x => x.id == e.id))) && (!(lx.any (fun x => x.id == e.id)))) =
        ry.filter (fun e => !(lx.any (fun x => x.id == e.id))) := by
    apply List.filter_congr
    intro e _
    exact Bool.and_self _
  rw [this]

theorem mergeBudget_self (A : MonthlyBudget) :
    mergeBudget A A = recalculateCategorySpending A := by
  unfold mergeBudget
  rw [filter_self_ids, List.append_nil]
  simp [Nat.lt_irrefl]

theorem mergeBudget_absorb (lb rb : MonthlyBudget) :
    mergeBudget lb (mergeBudget lb rb) = mergeBudget lb rb := by
  have hexp : expUnion lb.expenses (mergeBudget lb rb).expenses =
      (mergeBudget lb rb).expenses := by
    rw [mergeBudget_expenses_expUnion]
    exact expUnion_self_absorb lb.expenses rb.expenses
  by_cases hlt : lb.createdAt < rb.createdAt
  · have hca : (mergeBudget lb rb).createdAt = rb.createdAt := by
      rw [mergeBudget_createdAt, if_pos hlt]
    have hcond : lb.createdAt < (mergeBudget lb rb).createdAt := by
      rw [hca]; exact hlt
    rw [mergeBudget_def lb (mergeBudget lb rb), if_pos hcond, hexp]
    have heta : ({ mergeBudget lb rb with expenses := (mergeBudget lb rb).expenses } :
        MonthlyBudget) = mergeBudget lb rb := rfl
    rw [heta, mergeBudget_def lb rb]
    exact recalc_idem _
  · have hca : (mergeBudget lb rb).createdAt = lb.createdAt := by
      rw [mergeBudget_createdAt, if_neg hlt]
    have hcond : ¬ lb.createdAt < (mergeBudget lb rb).createdAt := by
      rw [hca]; exact lt_irrefl _
    rw [mergeBudget_def lb (mergeBudget lb rb), if_neg hcond, hexp,
      mergeBudget_expenses_expUnion]
    rw [mergeBudget_def lb rb, if_neg hlt]

/-- Concrete inconsistent budget used against C6: its category records
`spentAmount = 5` while the expense ledger is empty. -/
def c6A : MonthlyBudget :=
  { id := "b1", month := "2025-01", totalSalary := 0,
    categories := [{ id := "g", name := "Grocery", type := "grocery",
                     allocatedAmount := 10, spentAmount := 5, month := "2025-01" }],
    fixedExpenses := [], expenses := [], createdAt := 0 }

/-- C6 counterexample: merging a budget state with itself recalculates
the category totals, so a stale stored `spentAmount` (5 with an empty
ledger) is rewritten to 0 — the per-category spent totals are not left
unchanged for every budget state `A`. -/
theorem c6_counterexample :
    mergeRemoteWithLocal [c6A] [c6A] = [recalculateCategorySpending c6A] ∧
    (mergeRemoteWithLocal [c6A] [c6A]).map
      (fun b => b.categories.map (fun c => c.spentAmount)) = [[0]] ∧
    [c6A].map (fun b => b.categories.map (fun c => c.spentAmount)) = [[5]] ∧
    ¬ (mergeRemoteWithLocal [c6A] [c6A]).map
        (fun b => b.categories.map (fun c => c.spentAmount)) =
      [c6A].map (fun b => b.categories.map (fun c => c.spentAmount)) := by
  refine ⟨by decide, by decide, by decide, by decide⟩

/-- C6 (amended): merging a budget state with itself leaves the
transaction set and the per-category spent totals unchanged provided
the state already satisfies the derived-aggregation invariant (for an
inconsistent state the totals are re-derived instead). -/
theorem c6_merge_self (A : MonthlyBudget) (h : CategoryConsistent A) :
    mergeRemoteWithLocal [A] [A] = [A] := by
  rw [mergeRemoteWithLocal_eq [A] [A] (by simp [budgetIds]) (by simp [budgetIds])]
  have hfil : [A].filter (fun b => !([A].any (fun x => x.id == b.id))) = [] := by
    simp
  have hone : mergeOne [A] A = mergeBudget A A := by
    unfold mergeOne
    rw [List.find?_cons_of_pos _ (by simp)]
  rw [hfil, List.append_nil, List.map_cons, List.map_nil, hone, mergeBudget_self,
    recalc_of_consistent h]

/-- Concrete consistent budget used to witness the amended C6. -/
def c6W : MonthlyBudget :=
  { id := "b1", month := "2025-01", totalSalary := 100,
    categories := [{ id := "g", name := "Grocery", type := "grocery",
                     allocatedAmount := 10, spentAmount := 40, month := "2025-01" }],
    fixedExpenses := [],
    expenses := [{ id := "e1", categoryId := "g", amount := 40,
                   description := "milk", date := "2025-01-02", type := "manual" }],
    createdAt := 0 }

theorem c6_witness : mergeRemoteWithLocal [c6W] [c6W] = [c6W] :=
  c6_merge_self c6W (by decide)

/-- C4 counterexample: the claim quantifies over all budget lists, but a
local-only budget is kept verbatim by the first merge and recalculated
by the second.  With the inconsistent local-only budget `c6A`
(`spentAmount = 5`, empty ledger) and an empty remote side, the second
merge rewrites the total to 0, so
`merge(x, merge(x, y)) ≠ merge(x, y)`. -/
theorem c4_counterexample :
    ¬ mergeRemoteWithLocal [c6A] (mergeRemoteWithLocal [c6A] []) =
        mergeRemoteWithLocal [c6A] [] := by
  decide

/-- C4 (amended): `merge(x, merge(x, y)) = merge(x, y)` holds once the
presupposed budget-id uniqueness of each list is added and every
local budget without a remote counterpart already satisfies the
derived-aggregation invariant (the first merge keeps such budgets
verbatim while the second recalculates them, so a stale stored total
would differ). `x` is syntactically unchanged between the merges, so
its creation timestamps are unchanged as the claim requires. -/
theorem c4_merge_idempotent (x y : List MonthlyBudget)
    (hx : (budgetIds x).Nodup) (hy : (budgetIds y).Nodup)
    (hcons : ∀ b ∈ x, (∀ rb ∈ y, ¬ rb.id = b.id) → CategoryConsistent b) :
    mergeRemoteWithLocal x (mergeRemoteWithLocal x y) = mergeRemoteWithLocal x y := by
  have hm : mergeRemoteWithLocal x y =
      x.map (mergeOne y) ++ y.filter (fun b => !(x.any (fun a => a.id == b.id))) :=
    mergeRemoteWithLocal_eq x y hx hy
  have hmid : (budgetIds (mergeRemoteWithLocal x y)).Nodup :=
    merged_budgetIds_nodup x y hx hy
  rw [mergeRemoteWithLocal_eq x (mergeRemoteWithLocal x y) hx hmid]
  have hmapB : x.map (mergeOne (mergeRemoteWithLocal x y)) = x.map (mergeOne y) := by
    apply List.map_congr_left
    intro lb hlb
    cases hf : y.find? (fun b => b.id == lb.id) with
    | some rb =>
      have hid : rb.id = lb.id := by simpa using List.find?_some hf
      have hone : mergeOne y lb = mergeBudget lb rb := by
        unfold mergeOne; rw [hf]
      have hmem : mergeBudget lb rb ∈ mergeRemoteWithLocal x y := by
        rw [hm]
        exact List.mem_append_left _ (List.mem_map.mpr ⟨lb, hlb, hone⟩)
      have hfind2 : (mergeRemoteWithLocal x y).find? (fun b => b.id == lb.id) =
          some (mergeBudget lb rb) := by
        have h3 := find?_eq_some_of_nodup hmid hmem
        rw [show (fun b : MonthlyBudget => b.id == (mergeBudget lb rb).id)
            = (fun b => b.id == lb.id) from by
          funext b; rw [mergeBudget_id hid]] at h3
        exact h3
      simp only [mergeOne, hfind2, hf]
      exact mergeBudget_absorb lb rb
    | none =>
      have hnone : ∀ rbv ∈ y, ¬ rbv.id = lb.id := by
        intro rbv hrbv hcontra
        have h4 := List.find?_eq_none.mp hf rbv hrbv
        simp [hcontra] at h4
      have hone : mergeOne y lb = lb := by
        unfold mergeOne; rw [hf]
      have hmem : lb ∈ mergeRemoteWithLocal x y := by
        rw [hm]
        exact List.mem_append_left _ (List.mem_map.mpr ⟨lb, hlb, hone⟩)
      have hfind2 : (mergeRemoteWithLocal x y).find? (fun b => b.id == lb.id) =
          some lb := find?_eq_some_of_nodup hmid hmem
      simp only [mergeOne, hfind2, hf]
      rw [mergeBudget_self]
      exact recalc_of_consistent (hcons lb hlb hnone)
  have hfilA : (mergeRemoteWithLocal x y).filter
      (fun b => !(x.any (fun a => a.id == b.id))) =
        y.filter (fun b => !(x.any (fun a => a.id == b.id))) := by
    rw [hm, List.filter_append]
    have h1 : (x.map (mergeOne y)).filter
        (fun b => !(x.any (fun a => a.id == b.id))) = [] := by
      rw [List.filter_eq_nil_iff]
      intro b hb
      obtain ⟨lb, hlb, rfl⟩ := List.mem_map.mp hb
      have h5 : x.any (fun a => a.id == (mergeOne y lb).id) = true :=
        List.any_eq_true.mpr ⟨lb, hlb, by rw [mergeOne_id]; simp⟩
      simp [h5]
    have h2 : (y.filter (fun b => !(x.any (fun a => a.id == b.id)))).filter
        (fun b => !(x.any (fun a => a.id == b.id))) =
          y.filter (fun b => !(x.any (fun a => a.id == b.id))) := by
      rw [List.filter_filter]
      apply List.filter_congr
      intro b _
      exact Bool.and_self _
    rw [h1, h2, List.nil_append]
  rw [hmapB, hfilA, ← hm]

theorem c4_witness :
    mergeRemoteWithLocal [c6W] (mergeRemoteWithLocal [c6W] []) =
      mergeRemoteWithLocal [c6W] [] :=
  c4_merge_idempotent [c6W] [] (by decide) (by decide) (by decide)

/-- The slice of the zustand store state (source lines 13–28) that the
mutations below read and write: the active budget, the budget history,
the selected month and the last sync time.  Sync status flags live on
the connection model further below. -/
structure StoreState where
  currentBudget : Option MonthlyBudget
  budgetHistory : List MonthlyBudget
  selectedMonth : String
  lastSyncTime : Option Nat
  deriving DecidableEq, Repr

/-- The commit pattern shared by every mutation: the updated budget
becomes the current budget and replaces its entry (matched by id
against the current budget) in the history. -/
def commitBudget (s : StoreState) (cb updatedBudget : MonthlyBudget) : StoreState :=
  { s with currentBudget := some updatedBudget,
           budgetHistory := s.budgetHistory.map
             (fun b => if b.id = cb.id then updatedBudget else b) }

/-- `defaultCategories` (source lines 73–79), as (name, type) pairs. -/
def defaultCategories : List (String × String) :=
  [("Fixed Savings", "fixed_savings"), ("Variable Savings", "variable_savings"),
   ("Fixed Expenses", "fixed_expenses"), ("Grocery", "grocery"),
   ("Unplanned Expenses", "unplanned")]

/-- `predefinedFixedExpenses` (source lines 81–91), as (name, amount)
pairs. -/
def predefinedFixedExpenses : List (String × Int) :=
  [("Milk Bill", 1500), ("House Maintenance", 1000), ("Fuel", 2000),
   ("Electricity", 1000), ("Internet", 1000), ("Gas Bill", 1000),
   ("AC EMI", 5000), ("Mom house rent", 6500), ("Mom medicine", 1000)]

/-- `getTotalPredefinedFixedExpenses` (source lines 93–94). -/
def getTotalPredefinedFixedExpenses : Int :=
  predefinedFixedExpenses.foldl (fun sum expense => sum + expense.2) 0

/-- `createMonthlyBudget` (source lines 441–500).  The generated ids
(`Date.now()`/`Math.random()` suffixes) are passed in as the functions
`catId`/`feId` and the fresh `budgetId`; `today` is the formatted
current date and `createdAt` the creation timestamp.  The source
mutates the found fixed-expense category in place to set its
allocation; `defaultCategories` contains exactly one category of type
`fixed_expenses`, so this is embedded as a map over the list. -/
def defaultCategoryList (month : String) (catId : String → String) :
    List BudgetCategory :=
  defaultCategories.map
    (fun c => { id := catId c.1, name := c.1, type := c.2,
                allocatedAmount := 0, spentAmount := 0, month := month })

/-- The in-place mutation of the found fixed-expenses category (source
lines 477-478), lifted to the one matching element of the list. -/
def raiseFixedAllocation (cat : BudgetCategory) : BudgetCategory :=
  if cat.type = "fixed_expenses"
  then { cat with allocatedAmount := getTotalPredefinedFixedExpenses }
  else cat

/-- The budget constructed by `createMonthlyBudget` (source lines
441–489): default categories with zero amounts, the predefined fixed
expenses attached to the fixed-expenses category, whose allocation is
set to their total, an empty ledger and the creation timestamp. -/
def newMonthlyBudget (salary : Int) (month budgetId : String)
    (catId feId : String → String) (today : String) (createdAt : Nat) :
    MonthlyBudget :=
  let categories := defaultCategoryList month catId
  let fixedExpenseCategory := categories.find? (fun cat => cat.type == "fixed_expenses")
  let fixedExpenses : List FixedExpense :=
    match fixedExpenseCategory with
    | some fc => predefinedFixedExpenses.map
        (fun p => { id := feId p.1, categoryId := fc.id, name := p.1, amount := p.2,
                    isCompleted := false, dueDate := some today })
    | none => []
  let categories2 :=
    match fixedExpenseCategory with
    | some _ => categories.map raiseFixedAllocation
    | none => categories
  { id := budgetId, month := month, totalSalary := salary, categories := categories2,
    fixedExpenses := fixedExpenses, expenses := [], createdAt := createdAt }

def createMonthlyBudget (s : StoreState) (salary : Int) (month : String)
    (budgetId : String) (catId : String → String) (feId : String → String)
    (today : String) (createdAt : Nat) : StoreState :=
  let newBudget := newMonthlyBudget salary month budgetId catId feId today createdAt
  { s with currentBudget := some newBudget,
           budgetHistory := s.budgetHistory ++ [newBudget] }

/-- `updateCategoryAllocation` (source lines 502–529). -/
def updateCategoryAllocation (s : StoreState) (categoryId : String) (amount : Int) :
    StoreState :=
  match s.currentBudget with
  | none => s
  | some cb =>
    let updatedCategories := cb.categories.map
      (fun cat => if cat.id = categoryId then { cat with allocatedAmount := amount } else cat)
    let updatedBudget := { cb with categories := updatedCategories }
    commitBudget s cb updatedBudget

/-- `addFixedExpense` (source lines 531–572); `expenseId` is the
generated id and `dueDate` the resolved due date. -/
def addFixedExpense (s : StoreState) (categoryId name : String) (amount : Int)
    (dueDate : String) (expenseId : String) : StoreState :=
  match s.currentBudget with
  | none => s
  | some cb =>
    let newFixedExpense : FixedExpense :=
      { id := expenseId, categoryId := categoryId, name := name, amount := amount,
        isCompleted := false, dueDate := some dueDate }
    commitBudget s cb { cb with fixedExpenses := cb.fixedExpenses ++ [newFixedExpense] }

/-- `markFixedExpenseComplete` (source lines 574–621); `manualExpenseId`
is the generated id of the emitted transaction and `now` the ISO
timestamp. -/
def markFixedExpenseComplete (s : StoreState) (expenseId manualExpenseId now : String) :
    StoreState :=
  match s.currentBudget with
  | none => s
  | some cb =>
    match cb.fixedExpenses.find? (fun fe => fe.id == expenseId) with
    | none => s
    | some fixedExpense =>
      let newManualExpense : Expense :=
        { id := manualExpenseId, categoryId := fixedExpense.categoryId,
          amount := fixedExpense.amount, description := fixedExpense.name,
          date := now, type := "fixed" }
      let updatedFixedExpenses := cb.fixedExpenses.map
        (fun fe => if fe.id = expenseId then { fe with isCompleted := true } else fe)
      let updatedBudget := recalculateCategorySpending
        { cb with fixedExpenses := updatedFixedExpenses,
                  expenses := cb.expenses ++ [newManualExpense] }
      commitBudget s cb updatedBudget

/-- `addManualExpense` (source lines 623–707); `expenseId` is the
generated id and `date` the resolved date. -/
def addManualExpense (s : StoreState) (categoryId : String) (amount : Int)
    (description date expenseId : String) : StoreState :=
  match s.currentBudget with
  | none => s
  | some cb =>
    let newExpense : Expense :=
      { id := expenseId, categoryId := categoryId, amount := amount,
        description := description, date := date, type := "manual" }
    let updatedBudget := recalculateCategorySpending
      { cb with expenses := cb.expenses ++ [newExpense] }
    commitBudget s cb updatedBudget

/-- `editExpense` (source lines 709–760). -/
def editExpense (s : StoreState) (expenseId categoryId : String) (amount : Int)
    (description date : String) : StoreState :=
  match s.currentBudget with
  | none => s
  | some cb =>
    match cb.expenses.find? (fun e => e.id == expenseId) with
    | none => s
    | some _ =>
      let updatedExpenses := cb.expenses.map
        (fun exp => if exp.id = expenseId
          then { exp with categoryId := categoryId, amount := amount,
                          description := description, date := date }
          else exp)
      let updatedBudget := recalculateCategorySpending
        { cb with expenses := updatedExpenses }
      commitBudget s cb updatedBudget

/-- `deleteExpense` (source lines 762–799). -/
def deleteExpense (s : StoreState) (expenseId : String) : StoreState :=
  match s.currentBudget with
  | none => s
  | some cb =>
    match cb.expenses.find? (fun e => e.id == expenseId) with
    | none => s
    | some _ =>
      let updatedExpenses := cb.expenses.filter (fun exp => !(exp.id == expenseId))
      let updatedBudget := recalculateCategorySpending
        { cb with expenses := updatedExpenses }
      commitBudget s cb updatedBudget

/-- `topupCategory` (source lines 801–859): move allocation between two
categories, rejected outright when the source category's unspent
remainder is below the requested amount. -/
def topupCategory (s : StoreState) (fromCategoryId toCategoryId : String)
    (amount : Int) : StoreState :=
  match s.currentBudget with
  | none => s
  | some cb =>
    match cb.categories.find? (fun cat => cat.id == fromCategoryId) with
    | none => s
    | some fromCategory =>
      match cb.categories.find? (fun cat => cat.id == toCategoryId) with
      | none => s
      | some _ =>
        if fromCategory.allocatedAmount - fromCategory.spentAmount < amount then s
        else
          let updatedCategories := cb.categories.map (fun cat =>
            if cat.id = fromCategoryId then
              { cat with allocatedAmount := cat.allocatedAmount - amount }
            else if cat.id = toCategoryId then
              { cat with allocatedAmount := cat.allocatedAmount + amount }
            else cat)
          commitBudget s cb { cb with categories := updatedCategories }

/-- `budgets.find(b => b.month === selectedMonth) || fallback` — the
current-budget refresh used by every commit path. -/
def pickCurrentBudget (budgets : List MonthlyBudget) (month : String)
    (fallback : Option MonthlyBudget) : Option MonthlyBudget :=
  match budgets.find? (fun b => b.month == month) with
  | some b => some b
  | none => fallback

/-- The real-time subscription callback registered by
`initializeFirestore` (source lines 255–276): discard self-echoes, merge
the delivered budgets into the history, refresh the current budget from
the merged list and stamp the sync time. -/
def subscriptionMergeCallback (s : StoreState) (budgets : List MonthlyBudget)
    (updatedBy memberId : String) (now : Nat) : StoreState :=
  if updatedBy == memberId then s
  else
    let mergedBudgets := mergeRemoteWithLocal s.budgetHistory budgets
    { s with budgetHistory := mergedBudgets,
             currentBudget :=
               pickCurrentBudget mergedBudgets s.selectedMonth s.currentBudget,
             lastSyncTime := some now }

/-- The subscription callback registered by `createOrJoinFamily`
(source lines 316–332): discard self-echoes, otherwise replace the
history wholesale with the delivered budgets. -/
def joinFamilyCallback (s : StoreState) (budgets : List MonthlyBudget)
    (updatedBy memberId : String) (now : Nat) : StoreState :=
  if updatedBy == memberId then s
  else
    { s with budgetHistory := budgets,
             currentBudget :=
               pickCurrentBudget budgets s.selectedMonth s.currentBudget,
             lastSyncTime := some now }

/-- The commit performed by `loadFromFirestore` (source lines 394–426)
after fetching the remote budgets. -/
def loadFromFirestoreCommit (s : StoreState) (remoteBudgets : List MonthlyBudget)
    (now : Nat) : StoreState :=
  let mergedBudgets := mergeRemoteWithLocal s.budgetHistory remoteBudgets
  { s with budgetHistory := mergedBudgets,
           currentBudget :=
             pickCurrentBudget mergedBudgets s.selectedMonth s.currentBudget,
           lastSyncTime := some now }

/-- Every budget held by the store (history entries and the current
budget) satisfies the derived-aggregation invariant. -/
def ConsistentState (s : StoreState) : Prop :=
  (∀ b ∈ s.budgetHistory, CategoryConsistent b) ∧
  (∀ b, s.currentBudget = some b → CategoryConsistent b)

/-- The connection-relevant flags of the Sync Engine: the store's
`isInitializing`/`isListenerActive` flags (source lines 19–23), the
service's `familyId` and `isSubscribed` flag
(`firestoreService.ts` lines 43–47) and a count of subscriptions ever
established (the length of `unsubscribeFunctions`). -/
structure SyncConnState where
  isInitializing : Bool
  isListenerActive : Bool
  familyId : Option String
  isSubscribed : Bool
  subscriptionCount : Nat
  deriving DecidableEq, Repr

/-- `subscribeToFamilyUpdates` (`firestoreService.ts` lines 291–323):
bail out without a family id or when already subscribed, otherwise mark
subscribed and register one more listener. -/
def subscribeToFamilyUpdates (s : SyncConnState) : SyncConnState :=
  if s.familyId.isNone || s.isSubscribed then s
  else { s with isSubscribed := true, subscriptionCount := s.subscriptionCount + 1 }

/-- The connection effect of `initializeFirestore` (source lines
207–294): bail out while initializing or when the listener is already
active; with a family id, raise the listener-active flag and subscribe;
`isInitializing` is raised on entry and lowered again before the
listener is set up, so it ends false on every completed run. -/
def initFirestoreConnect (s : SyncConnState) : SyncConnState :=
  if s.isInitializing || s.isListenerActive then s
  else
    match s.familyId with
    | some _ =>
        subscribeToFamilyUpdates
          { s with isInitializing := false, isListenerActive := true }
    | none => { s with isInitializing := false }

theorem subscribe_isListenerActive (s : SyncConnState) :
    (subscribeToFamilyUpdates s).isListenerActive = s.isListenerActive := by
  unfold subscribeToFamilyUpdates
  by_cases h : (s.familyId.isNone || s.isSubscribed) = true <;> simp [h]

theorem subscribe_isInitializing (s : SyncConnState) :
    (subscribeToFamilyUpdates s).isInitializing = s.isInitializing := by
  unfold subscribeToFamilyUpdates
  by_cases h : (s.familyId.isNone || s.isSubscribed) = true <;> simp [h]

theorem subscribe_count_le (s : SyncConnState) :
    (subscribeToFamilyUpdates s).subscriptionCount ≤ s.subscriptionCount + 1 := by
  unfold subscribeToFamilyUpdates
  by_cases h : (s.familyId.isNone || s.isSubscribed) = true <;> simp [h]

/-- After a completed `connect`, every further `connect` is the
identity. -/
theorem initFirestoreConnect_idem (t : SyncConnState) :
    initFirestoreConnect (initFirestoreConnect t) = initFirestoreConnect t := by
  by_cases hg : (t.isInitializing || t.isListenerActive) = true
  · have h1 : initFirestoreConnect t = t := by
      unfold initFirestoreConnect; simp [hg]
    rw [h1]
    exact h1
  · cases hfid : t.familyId with
    | none =>
      have hl : t.isListenerActive = false := by
        rcases Bool.or_eq_false_iff.mp (by simpa using hg) with ⟨_, h2⟩
        exact h2
      have h1 : initFirestoreConnect t = { t with isInitializing := false } := by
        unfold initFirestoreConnect; simp [hg, hfid]
      rw [h1]
      unfold initFirestoreConnect
      simp [hfid, hl]
    | some f =>
      have h1 : initFirestoreConnect t =
          subscribeToFamilyUpdates
            { t with isInitializing := false, isListenerActive := true } := by
        unfold initFirestoreConnect; simp [hg, hfid]
      rw [h1]
      unfold initFirestoreConnect
      rw [if_pos (by rw [subscribe_isListenerActive]; simp)]

theorem spentSum_append (es1 es2 : List Expense) (cid : String) :
    spentSum (es1 ++ es2) cid = spentSum es1 cid + spentSum es2 cid := by
  unfold spentSum
  rw [List.filter_append, List.map_append, List.sum_append]

/-- C9: invoking connect twice in immediate succession establishes
exactly one active remote subscription: the first invocation raises the
listener-active and subscribed flags and registers exactly one
subscription, and every further invocation is a no-op. -/
theorem c9_connect_twice (s : SyncConnState) (fid : String)
    (h1 : s.isInitializing = false) (h2 : s.isListenerActive = false)
    (h3 : s.isSubscribed = false) (h4 : s.subscriptionCount = 0)
    (h5 : s.familyId = some fid) :
    (initFirestoreConnect s).isListenerActive = true ∧
    (initFirestoreConnect s).isSubscribed = true ∧
    (initFirestoreConnect s).subscriptionCount = 1 ∧
    initFirestoreConnect (initFirestoreConnect s) = initFirestoreConnect s ∧
    (initFirestoreConnect (initFirestoreConnect s)).subscriptionCount = 1 := by
  have hc : initFirestoreConnect s =
      subscribeToFamilyUpdates
        { s with isInitializing := false, isListenerActive := true } := by
    unfold initFirestoreConnect
    simp [h1, h2, h5]
  have hsub : subscribeToFamilyUpdates
      { s with isInitializing := false, isListenerActive := true } =
        { s with isInitializing := false, isListenerActive := true,
                 isSubscribed := true, subscriptionCount := s.subscriptionCount + 1 } := by
    unfold subscribeToFamilyUpdates
    simp [h5, h3]
  refine ⟨?_, ?_, ?_, initFirestoreConnect_idem s, ?_⟩
  · rw [hc, hsub]
  · rw [hc, hsub]
  · rw [hc, hsub]; simp [h4]
  · rw [initFirestoreConnect_idem s, hc, hsub]; simp [h4]

/-- Concrete clean connection state used to witness C9. -/
def c9S : SyncConnState :=
  { isInitializing := false, isListenerActive := false, familyId := some "fam1",
    isSubscribed := false, subscriptionCount := 0 }

theorem c9_witness :
    (initFirestoreConnect c9S).subscriptionCount = 1 ∧
    initFirestoreConnect (initFirestoreConnect c9S) = initFirestoreConnect c9S :=
  have h := c9_connect_twice c9S "fam1" rfl rfl rfl rfl rfl
  ⟨h.2.2.1, h.2.2.2.1⟩

/-- C7: a subscription delivery whose last-writer actor id equals the
local device's member id never changes the Local State Store — both
registered callbacks return the state untouched, before any merge or
commit. -/
theorem c7_self_echo_suppression (s : StoreState) (budgets : List MonthlyBudget)
    (memberId : String) (now : Nat) :
    subscriptionMergeCallback s budgets memberId memberId now = s ∧
    joinFamilyCallback s budgets memberId memberId now = s := by
  refine ⟨?_, ?_⟩
  · simp [subscriptionMergeCallback]
  · simp [joinFamilyCallback]

/-- C8: transfer rejection is atomic — when the source category's
unspent remainder is strictly below the requested amount, the whole
store state is returned unchanged. -/
theorem c8_topup_rejected (s : StoreState) (cb : MonthlyBudget)
    (fromId toId : String) (amount : Int) (fc tc : BudgetCategory)
    (hcb : s.currentBudget = some cb)
    (hfc : cb.categories.find? (fun cat => cat.id == fromId) = some fc)
    (htc : cb.categories.find? (fun cat => cat.id == toId) = some tc)
    (hlt : fc.allocatedAmount - fc.spentAmount < amount) :
    topupCategory s fromId toId amount = s := by
  unfold topupCategory
  rw [hcb]
  simp [hfc, htc, hlt]

/-- Concrete state for scenario 5 of the spec: source category with
`allocated = 300`, `spent = 150`, requested transfer of 200. -/
def c8Cat1 : BudgetCategory :=
  { id := "c1", name := "Grocery", type := "grocery", allocatedAmount := 300,
    spentAmount := 150, month := "2025-01" }

def c8Cat2 : BudgetCategory :=
  { id := "c2", name := "Unplanned", type := "unplanned", allocatedAmount := 100,
    spentAmount := 0, month := "2025-01" }

def c8B : MonthlyBudget :=
  { id := "b1", month := "2025-01", totalSalary := 1000,
    categories := [c8Cat1, c8Cat2], fixedExpenses := [], expenses := [],
    createdAt := 0 }

def c8S : StoreState :=
  { currentBudget := some c8B, budgetHistory := [c8B], selectedMonth := "2025-01",
    lastSyncTime := none }

theorem c8_witness : topupCategory c8S "c1" "c2" 200 = c8S :=
  c8_topup_rejected c8S c8B "c1" "c2" 200 c8Cat1 c8Cat2 rfl
    (by decide) (by decide) (by decide)

/-- C10: each call of `markFixedExpenseComplete` on a present template
appends exactly one transaction carrying the template's amount and
category id and sets the completion flag, with no guard on an already
completed template; the affected category's recomputed spent amount
grows by the template's amount. -/
theorem c10_mark_complete (s : StoreState) (cb : MonthlyBudget)
    (expenseId newId now : String) (fe : FixedExpense)
    (hcb : s.currentBudget = some cb)
    (hfe : cb.fixedExpenses.find? (fun f => f.id == expenseId) = some fe) :
    ∃ cb2, (markFixedExpenseComplete s expenseId newId now).currentBudget = some cb2 ∧
      cb2.expenses = cb.expenses ++
        [{ id := newId, categoryId := fe.categoryId, amount := fe.amount,
           description := fe.name, date := now, type := "fixed" }] ∧
      cb2.expenses.length = cb.expenses.length + 1 ∧
      cb2.fixedExpenses = cb.fixedExpenses.map
        (fun f => if f.id = expenseId then { f with isCompleted := true } else f) ∧
      ({ fe with isCompleted := true } : FixedExpense) ∈ cb2.fixedExpenses ∧
      ∀ c ∈ cb.categories, c.id = fe.categoryId →
        ({ c with spentAmount := spentSum cb.expenses c.id + fe.amount } : BudgetCategory)
          ∈ cb2.categories := by
  have hrun : markFixedExpenseComplete s expenseId newId now =
      commitBudget s cb (recalculateCategorySpending
        { cb with
            fixedExpenses := cb.fixedExpenses.map
              (fun f => if f.id = expenseId then { f with isCompleted := true } else f),
            expenses := cb.expenses ++
              [{ id := newId, categoryId := fe.categoryId, amount := fe.amount,
                 description := fe.name, date := now, type := "fixed" }] }) := by
    unfold markFixedExpenseComplete
    rw [hcb]
    simp only [hfe]
  rw [hrun]
  have hfemem : fe ∈ cb.fixedExpenses := List.mem_of_find?_eq_some hfe
  have hfeid : fe.id = expenseId := by simpa using List.find?_some hfe
  refine ⟨_, rfl, rfl, by simp [recalc_expenses], rfl, ?_, ?_⟩
  · show _ ∈ cb.fixedExpenses.map
      (fun f => if f.id = expenseId then { f with isCompleted := true } else f)
    exact List.mem_map.mpr ⟨fe, hfemem, by simp [hfeid]⟩
  · intro c hc hcid
    rw [recalc_categories]
    refine List.mem_map.mpr ⟨c, hc, ?_⟩
    have : spentSum (cb.expenses ++
        [{ id := newId, categoryId := fe.categoryId, amount := fe.amount,
           description := fe.name, date := now, type := "fixed" }]) c.id =
      spentSum cb.expenses c.id + fe.amount := by
      rw [spentSum_append, spentSum_cons]
      have h0 : spentSum [] c.id = 0 := rfl
      simp [hcid.symm, h0]
    rw [this]

/-- Concrete state witnessing C10: the single template is already
completed and a second completion still appends a transaction. -/
def c10FE : FixedExpense :=
  { id := "f1", name := "Internet", amount := 1000, isCompleted := true,
    dueDate := some "2025-01-05", categoryId := "cfix" }

def c10B : MonthlyBudget :=
  { id := "b1", month := "2025-01", totalSalary := 1000,
    categories := [{ id := "cfix", name := "Fixed Expenses", type := "fixed_expenses",
                     allocatedAmount := 2000, spentAmount := 1000, month := "2025-01" }],
    fixedExpenses := [c10FE],
    expenses := [{ id := "e1", categoryId := "cfix", amount := 1000,
                   description := "Internet", date := "2025-01-05", type := "fixed" }],
    createdAt := 0 }

def c10S : StoreState :=
  { currentBudget := some c10B, budgetHistory := [c10B], selectedMonth := "2025-01",
    lastSyncTime := none }

theorem c10_witness :
    ∃ cb2, (markFixedExpenseComplete c10S "f1" "e2" "2025-01-20").currentBudget = some cb2 ∧
      cb2.expenses = c10B.expenses ++
        [{ id := "e2", categoryId := c10FE.categoryId, amount := c10FE.amount,
           description := c10FE.name, date := "2025-01-20", type := "fixed" }] ∧
      cb2.expenses.length = c10B.expenses.length + 1 ∧
      cb2.fixedExpenses = c10B.fixedExpenses.map
        (fun f => if f.id = "f1" then { f with isCompleted := true } else f) ∧
      ({ c10FE with isCompleted := true } : FixedExpense) ∈ cb2.fixedExpenses ∧
      ∀ c ∈ c10B.categories, c.id = c10FE.categoryId →
        ({ c with spentAmount := spentSum c10B.expenses c.id + c10FE.amount } :
          BudgetCategory) ∈ cb2.categories :=
  c10_mark_complete c10S c10B "f1" "e2" "2025-01-20" c10FE rfl (by decide)

theorem mergeBudget_consistent (lb rb : MonthlyBudget) :
    CategoryConsistent (mergeBudget lb rb) :=
  recalc_consistent _

theorem mem_budgetMapInsert {m : List MonthlyBudget} {b x : MonthlyBudget}
    (h : x ∈ budgetMapInsert m b) : x ∈ m ∨ x = b := by
  unfold budgetMapInsert at h
  by_cases hmem : m.any (fun a => a.id == b.id) = true
  · rw [if_pos hmem] at h
    obtain ⟨x0, hx0, rfl⟩ := List.mem_map.mp h
    by_cases hx : x0.id = b.id
    · right; simp [hx]
    · left; simpa [hx] using hx0
  · rw [if_neg hmem] at h
    rcases List.mem_append.mp h with h1 | h1
    · exact Or.inl h1
    · right; simpa using h1

theorem mem_foldl_budgetMapInsert {r : List MonthlyBudget} :
    ∀ {x : MonthlyBudget} {acc : List MonthlyBudget},
      x ∈ r.foldl budgetMapInsert acc → x ∈ acc ∨ x ∈ r := by
  induction r with
  | nil => intro x acc h; exact Or.inl h
  | cons b t ih =>
    intro x acc h
    rw [List.foldl_cons] at h
    rcases ih h with h1 | h1
    · rcases mem_budgetMapInsert h1 with h2 | h2
      · exact Or.inl h2
      · exact Or.inr (h2 ▸ List.mem_cons_self b t)
    · exact Or.inr (List.mem_cons_of_mem b h1)

theorem consistent_mergeLoop (l : List MonthlyBudget) :
    ∀ m out, (∀ b ∈ l, CategoryConsistent b) → (∀ b ∈ m, CategoryConsistent b) →
      (∀ b ∈ out, CategoryConsistent b) →
      (∀ b ∈ (l.foldl mergeStep (m, out)).1, CategoryConsistent b) ∧
      (∀ b ∈ (l.foldl mergeStep (m, out)).2, CategoryConsistent b) := by
  induction l with
  | nil => intro m out _ hm hout; exact ⟨hm, hout⟩
  | cons lb t ih =>
    intro m out hl hm hout
    rw [List.foldl_cons]
    have hl' : ∀ b ∈ t, CategoryConsistent b :=
      fun b hb => hl b (List.mem_cons_of_mem lb hb)
    cases hf : m.find? (fun b => b.id == lb.id) with
    | some rb =>
      have hstep : mergeStep (m, out) lb =
          (m.filter (fun b => !(b.id == lb.id)), out ++ [mergeBudget lb rb]) := by
        simp [mergeStep, hf]
      rw [hstep]
      refine ih _ _ hl' ?_ ?_
      · intro b hb
        exact hm b (List.mem_of_mem_filter hb)
      · intro b hb
        rcases List.mem_append.mp hb with h1 | h1
        · exact hout b h1
        · have : b = mergeBudget lb rb := by simpa using h1
          exact this ▸ mergeBudget_consistent lb rb
    | none =>
      have hstep : mergeStep (m, out) lb = (m, out ++ [lb]) := by
        simp [mergeStep, hf]
      rw [hstep]
      refine ih _ _ hl' hm ?_
      intro b hb
      rcases List.mem_append.mp hb with h1 | h1
      · exact hout b h1
      · have : b = lb := by simpa using h1
        exact this ▸ hl lb (List.mem_cons_self lb t)

/-- Every budget produced by the merge is consistent as soon as every
input budget is: merged pairs are recalculated, and the budgets kept
verbatim were consistent by assumption. -/
theorem consistent_merge {l r : List MonthlyBudget}
    (hl : ∀ b ∈ l, CategoryConsistent b) (hr : ∀ b ∈ r, CategoryConsistent b) :
    ∀ b ∈ mergeRemoteWithLocal l r, CategoryConsistent b := by
  intro b hb
  have hm : ∀ x ∈ r.foldl budgetMapInsert [], CategoryConsistent x := by
    intro x hx
    rcases mem_foldl_budgetMapInsert hx with h1 | h1
    · cases h1
    · exact hr x h1
  have hloop := consistent_mergeLoop l (r.foldl budgetMapInsert []) [] hl hm
    (by intro x hx; cases hx)
  rcases List.mem_append.mp hb with h1 | h1
  · exact hloop.2 b h1
  · exact hloop.1 b h1

theorem consistent_commitBudget {s : StoreState} {cb ub : MonthlyBudget}
    (hs : ConsistentState s) (hub : CategoryConsistent ub) :
    ConsistentState (commitBudget s cb ub) := by
  constructor
  · intro b hb
    obtain ⟨b0, hb0, rfl⟩ := List.mem_map.mp hb
    by_cases h : b0.id = cb.id
    · simpa [h] using hub
    · simpa [h] using hs.1 b0 hb0
  · intro b hb
    have : ub = b := by simpa [commitBudget] using hb
    exact this ▸ hub

theorem consistent_map_categories {cb : MonthlyBudget} (h : CategoryConsistent cb)
    {f : BudgetCategory → BudgetCategory}
    (hf : ∀ c, (f c).id = c.id ∧ (f c).spentAmount = c.spentAmount) :
    CategoryConsistent { cb with categories := cb.categories.map f } := by
  intro c hc
  obtain ⟨c0, hc0, rfl⟩ := List.mem_map.mp hc
  show (f c0).spentAmount = spentSum cb.expenses (f c0).id
  rw [(hf c0).2, (hf c0).1]
  exact h c0 hc0

theorem defaultCategoryList_spent (month : String) (catId : String → String) :
    ∀ c ∈ defaultCategoryList month catId, c.spentAmount = 0 := by
  intro c hc
  obtain ⟨p, _, rfl⟩ := List.mem_map.mp hc
  rfl

theorem newMonthlyBudget_consistent (salary : Int) (month budgetId : String)
    (catId feId : String → String) (today : String) (createdAt : Nat) :
    CategoryConsistent (newMonthlyBudget salary month budgetId catId feId today createdAt) := by
  intro c hc
  have hzero : c.spentAmount = 0 := by
    have hc2 : c ∈ (match (defaultCategoryList month catId).find?
        (fun cat => cat.type == "fixed_expenses") with
      | some _ => (defaultCategoryList month catId).map raiseFixedAllocation
      | none => defaultCategoryList month catId) := hc
    cases hfind : (defaultCategoryList month catId).find?
        (fun cat => cat.type == "fixed_expenses") with
    | some fc =>
      rw [hfind] at hc2
      obtain ⟨c0, hc0, rfl⟩ := List.mem_map.mp hc2
      have h0 := defaultCategoryList_spent month catId c0 hc0
      unfold raiseFixedAllocation
      by_cases ht : c0.type = "fixed_expenses" <;> simp [ht, h0]
    | none =>
      rw [hfind] at hc2
      exact defaultCategoryList_spent month catId c hc2
  rw [hzero]
  rfl

theorem createMonthlyBudget_consistent (s : StoreState) (salary : Int)
    (month budgetId : String) (catId feId : String → String) (today : String)
    (createdAt : Nat) (hs : ConsistentState s) :
    ConsistentState (createMonthlyBudget s salary month budgetId catId feId today createdAt) := by
  constructor
  · intro b hb
    rcases List.mem_append.mp hb with h1 | h1
    · exact hs.1 b h1
    · have hb2 : b = newMonthlyBudget salary month budgetId catId feId today createdAt := by
        simpa using h1
      exact hb2 ▸ newMonthlyBudget_consistent salary month budgetId catId feId today createdAt
  · intro b hb
    have hb2 : newMonthlyBudget salary month budgetId catId feId today createdAt = b := by
      simpa [createMonthlyBudget] using hb
    exact hb2 ▸ newMonthlyBudget_consistent salary month budgetId catId feId today createdAt

theorem updateCategoryAllocation_consistent (s : StoreState) (cid : String)
    (amt : Int) (hs : ConsistentState s) :
    ConsistentState (updateCategoryAllocation s cid amt) := by
  unfold updateCategoryAllocation
  split
  · exact hs
  next cb hcb =>
    refine consistent_commitBudget hs (consistent_map_categories (hs.2 cb hcb) ?_)
    intro c
    by_cases h : c.id = cid <;> simp [h]

theorem addFixedExpense_consistent (s : StoreState) (cid nm : String) (amt : Int)
    (dd eid : String) (hs : ConsistentState s) :
    ConsistentState (addFixedExpense s cid nm amt dd eid) := by
  unfold addFixedExpense
  split
  · exact hs
  next cb hcb =>
    refine consistent_commitBudget hs ?_
    intro c hc
    exact hs.2 cb hcb c hc

theorem markFixedExpenseComplete_consistent (s : StoreState)
    (eid nid now : String) (hs : ConsistentState s) :
    ConsistentState (markFixedExpenseComplete s eid nid now) := by
  unfold markFixedExpenseComplete
  split
  · exact hs
  · split
    · exact hs
    · exact consistent_commitBudget hs (recalc_consistent _)

theorem addManualExpense_consistent (s : StoreState) (cid : String) (amt : Int)
    (d dt eid : String) (hs : ConsistentState s) :
    ConsistentState (addManualExpense s cid amt d dt eid) := by
  unfold addManualExpense
  split
  · exact hs
  · exact consistent_commitBudget hs (recalc_consistent _)

theorem editExpense_consistent (s : StoreState) (eid cid : String) (amt : Int)
    (d dt : String) (hs : ConsistentState s) :
    ConsistentState (editExpense s eid cid amt d dt) := by
  unfold editExpense
  split
  · exact hs
  · split
    · exact hs
    · exact consistent_commitBudget hs (recalc_consistent _)

theorem deleteExpense_consistent (s : StoreState) (eid : String)
    (hs : ConsistentState s) : ConsistentState (deleteExpense s eid) := by
  unfold deleteExpense
  split
  · exact hs
  · split
    · exact hs
    · exact consistent_commitBudget hs (recalc_consistent _)

theorem topupCategory_consistent (s : StoreState) (fromId toId : String)
    (amt : Int) (hs : ConsistentState s) :
    ConsistentState (topupCategory s fromId toId amt) := by
  unfold topupCategory
  split
  · exact hs
  next cb hcb =>
    split
    · exact hs
    · split
      · exact hs
      · split
        · exact hs
        · refine consistent_commitBudget hs (consistent_map_categories (hs.2 cb hcb) ?_)
          intro c
          by_cases h1 : c.id = fromId
          · simp [h1]
          · by_cases h2 : c.id = toId
            · have h3 : ¬ toId = fromId := fun h => h1 (h2.trans h)
              simp [h1, h2, h3]
            · simp [h1, h2]

theorem pickCurrentBudget_cases {budgets : List MonthlyBudget} {month : String}
    {fallback : Option MonthlyBudget} {b : MonthlyBudget}
    (h : pickCurrentBudget budgets month fallback = some b) :
    b ∈ budgets ∨ fallback = some b := by
  unfold pickCurrentBudget at h
  cases hf : budgets.find? (fun x => x.month == month) with
  | some b2 =>
    rw [hf] at h
    have : b2 = b := by simpa using h
    exact Or.inl (this ▸ List.mem_of_find?_eq_some hf)
  | none =>
    rw [hf] at h
    exact Or.inr h

theorem subscriptionMergeCallback_consistent (s : StoreState)
    (budgets : List MonthlyBudget) (updatedBy memberId : String) (now : Nat)
    (hs : ConsistentState s) (hr : ∀ b ∈ budgets, CategoryConsistent b) :
    ConsistentState (subscriptionMergeCallback s budgets updatedBy memberId now) := by
  unfold subscriptionMergeCallback
  split
  · exact hs
  · refine ⟨?_, ?_⟩
    · intro b hb
      exact consistent_merge hs.1 hr b hb
    · intro b hb
      have hb2 : pickCurrentBudget (mergeRemoteWithLocal s.budgetHistory budgets)
          s.selectedMonth s.currentBudget = some b := hb
      rcases pickCurrentBudget_cases hb2 with h1 | h1
      · exact consistent_merge hs.1 hr b h1
      · exact hs.2 b h1

theorem joinFamilyCallback_consistent (s : StoreState)
    (budgets : List MonthlyBudget) (updatedBy memberId : String) (now : Nat)
    (hs : ConsistentState s) (hr : ∀ b ∈ budgets, CategoryConsistent b) :
    ConsistentState (joinFamilyCallback s budgets updatedBy memberId now) := by
  unfold joinFamilyCallback
  split
  · exact hs
  · refine ⟨?_, ?_⟩
    · intro b hb
      exact hr b hb
    · intro b hb
      have hb2 : pickCurrentBudget budgets s.selectedMonth s.currentBudget = some b := hb
      rcases pickCurrentBudget_cases hb2 with h1 | h1
      · exact hr b h1
      · exact hs.2 b h1

theorem loadFromFirestoreCommit_consistent (s : StoreState)
    (remoteBudgets : List MonthlyBudget) (now : Nat)
    (hs : ConsistentState s) (hr : ∀ b ∈ remoteBudgets, CategoryConsistent b) :
    ConsistentState (loadFromFirestoreCommit s remoteBudgets now) := by
  refine ⟨?_, ?_⟩
  · intro b hb
    exact consistent_merge hs.1 hr b hb
  · intro b hb
    have hb2 : pickCurrentBudget (mergeRemoteWithLocal s.budgetHistory remoteBudgets)
        s.selectedMonth s.currentBudget = some b := hb
    rcases pickCurrentBudget_cases hb2 with h1 | h1
    · exact consistent_merge hs.1 hr b h1
    · exact hs.2 b h1

/-- C2: the derived-aggregation invariant — every category's
`spentAmount` equals the sum of its budget's matching expenses — is
preserved by every store mutation (create-budget, allocate, add fixed
expense, complete-fixed-expense, add/edit/delete expense, transfer) and
by every merge commit, including the subscription callbacks; budgets
adopted wholesale from the remote side are covered because the
delivered budgets, produced by the same code on the writing device,
satisfy the invariant. -/
theorem c2_spent_invariant (s : StoreState) (hs : ConsistentState s) :
    (∀ salary month budgetId catId feId today createdAt,
      ConsistentState
        (createMonthlyBudget s salary month budgetId catId feId today createdAt)) ∧
    (∀ cid amt, ConsistentState (updateCategoryAllocation s cid amt)) ∧
    (∀ cid nm amt dd eid, ConsistentState (addFixedExpense s cid nm amt dd eid)) ∧
    (∀ eid nid now, ConsistentState (markFixedExpenseComplete s eid nid now)) ∧
    (∀ cid amt d dt eid, ConsistentState (addManualExpense s cid amt d dt eid)) ∧
    (∀ eid cid amt d dt, ConsistentState (editExpense s eid cid amt d dt)) ∧
    (∀ eid, ConsistentState (deleteExpense s eid)) ∧
    (∀ fromId toId amt, ConsistentState (topupCategory s fromId toId amt)) ∧
    (∀ budgets updatedBy memberId now,
      (∀ b ∈ budgets, CategoryConsistent b) →
      ConsistentState (subscriptionMergeCallback s budgets updatedBy memberId now) ∧
      ConsistentState (joinFamilyCallback s budgets updatedBy memberId now) ∧
      ConsistentState (loadFromFirestoreCommit s budgets now)) := by
  refine ⟨?_, ?_, ?_, ?_, ?_, ?_, ?_, ?_, ?_⟩
  · intro salary month budgetId catId feId today createdAt
    exact createMonthlyBudget_consistent s salary month budgetId catId feId today createdAt hs
  · intro cid amt
    exact updateCategoryAllocation_consistent s cid amt hs
  · intro cid nm amt dd eid
    exact addFixedExpense_consistent s cid nm amt dd eid hs
  · intro eid nid now
    exact markFixedExpenseComplete_consistent s eid nid now hs
  · intro cid amt d dt eid
    exact addManualExpense_consistent s cid amt d dt eid hs
  · intro eid cid amt d dt
    exact editExpense_consistent s eid cid amt d dt hs
  · intro eid
    exact deleteExpense_consistent s eid hs
  · intro fromId toId amt
    exact topupCategory_consistent s fromId toId amt hs
  · intro budgets updatedBy memberId now hr
    exact ⟨subscriptionMergeCallback_consistent s budgets updatedBy memberId now hs hr,
      joinFamilyCallback_consistent s budgets updatedBy memberId now hs hr,
      loadFromFirestoreCommit_consistent s budgets now hs hr⟩

/-- Empty store used to witness C2. -/
def c2S0 : StoreState :=
  { currentBudget := none, budgetHistory := [], selectedMonth := "2025-01",
    lastSyncTime := none }

theorem c2_witness :
    ConsistentState (updateCategoryAllocation c2S0 "c" 5) ∧
    ConsistentState (subscriptionMergeCallback c2S0 [c6W] "a" "b" 0) :=
  have hs0 : ConsistentState c2S0 := by
    refine ⟨?_, ?_⟩
    · intro b hb
      simp [c2S0] at hb
    · intro b hb
      simp [c2S0] at hb
  have h := c2_spent_invariant c2S0 hs0
  ⟨h.2.1 "c" 5,
    (h.2.2.2.2.2.2.2.2 [c6W] "a" "b" 0 (by decide)).1⟩
